import Mathlib

/-!
Verification of the portfolio-tracking service of `investian/ai-stockpicker-1008`.

The development shallowly embeds:
* the `portfolio_holdings` row type (SQL migration, with its CHECK constraints
  as the `validHolding` predicate);
* the client-side `PortfolioService` methods `getUserPortfolio`,
  `getPortfolioSummary`, `getQuarterlyPerformance`, `getAvailableQuarters` and
  `clearCache` from `portfolioService.ts`;
* the server-side SQL function `get_portfolio_summary`;
* the dashboard's `loadPortfolioData` success path.

Monetary amounts (SQL `decimal`, JS `number`) are modelled as `Rat`; share
counts and years (SQL `integer`) as `Int`; `created_at` timestamps as `Int`
(only their order matters).  Remote failure is modelled by an
`Except String` parameter standing for the awaited supabase response.
-/

/-- A row of the `portfolio_holdings` table / the `PortfolioHolding` record. -/
structure PortfolioHolding where
  id : String
  user_id : String
  stock_symbol : String
  company_name : String
  shares : Int
  purchase_price : Rat
  current_price : Rat
  quarter : String
  year : Int
  created_at : Int
deriving DecidableEq, Repr

/-- The CHECK constraints of the `portfolio_holdings` table:
`shares > 0`, `purchase_price > 0`, `current_price > 0`. -/
def validHolding (h : PortfolioHolding) : Prop :=
  0 < h.shares ∧ 0 < h.purchase_price ∧ 0 < h.current_price

instance (h : PortfolioHolding) : Decidable (validHolding h) := by
  unfold validHolding; infer_instance

/-- One entry of the `quarterlyPerformance` array of `PortfolioSummary`. -/
structure QuarterPerf where
  quarter : String
  performance : Rat
deriving DecidableEq, Repr

/-- The `PortfolioSummary` interface of `portfolioService.ts` (it has no
`totalCost` field; cost is only an intermediate value). -/
structure PortfolioSummary where
  totalValue : Rat
  totalGainLoss : Rat
  totalGainLossPercent : Rat
  totalShares : Int
  quarterlyPerformance : List QuarterPerf
deriving DecidableEq, Repr

/-- The `holdings.forEach` accumulation loop of `getPortfolioSummary`:
running totals `(totalValue, totalCost, totalShares)`. -/
def summaryAccum (holdings : List PortfolioHolding) : Rat × Rat × Int :=
  holdings.foldl
    (fun acc holding =>
      (acc.1 + (holding.shares : Rat) * holding.current_price,
       acc.2.1 + (holding.shares : Rat) * holding.purchase_price,
       acc.2.2 + holding.shares))
    (0, 0, 0)

/-- The arithmetic part of `getPortfolioSummary`: build the summary from the
fetched holdings and the already-computed quarterly data. -/
def mkPortfolioSummary (holdings : List PortfolioHolding)
    (quarterlyData : List QuarterPerf) : PortfolioSummary :=
  let totalValue := (summaryAccum holdings).1
  let totalCost := (summaryAccum holdings).2.1
  let totalShares := (summaryAccum holdings).2.2
  let totalGainLoss := totalValue - totalCost
  { totalValue := totalValue
    totalGainLoss := totalGainLoss
    totalGainLossPercent := if totalCost > 0 then totalGainLoss / totalCost * 100 else 0
    totalShares := totalShares
    quarterlyPerformance := quarterlyData }

/-- Literal sum `Σ shares × current_price`. -/
def sumValue (holdings : List PortfolioHolding) : Rat :=
  (holdings.map fun h => (h.shares : Rat) * h.current_price).sum

/-- Literal sum `Σ shares × purchase_price`. -/
def sumCost (holdings : List PortfolioHolding) : Rat :=
  (holdings.map fun h => (h.shares : Rat) * h.purchase_price).sum

/-- Literal sum `Σ shares`. -/
def sumShares (holdings : List PortfolioHolding) : Int :=
  (holdings.map fun h => h.shares).sum

/-- The composite grouping key: the template literal
`` `${holding.quarter} ${holding.year}` `` of `getQuarterlyPerformance`. -/
def quarterKey (h : PortfolioHolding) : String :=
  h.quarter ++ " " ++ toString h.year

/-- `quarterMap.set(quarterKey, {totalValue: existing.totalValue + v, ...})`:
a JS `Map` keeps first-insertion order, updating a present key in place. -/
def updateQuarterMap :
    List (String × Rat × Rat) → String → Rat → Rat → List (String × Rat × Rat)
  | [], key, v, c => [(key, v, c)]
  | (k, tv, tc) :: rest, key, v, c =>
    if k = key then (k, tv + v, tc + c) :: rest
    else (k, tv, tc) :: updateQuarterMap rest key v c

/-- One iteration of the `data?.forEach` loop of `getQuarterlyPerformance`. -/
def quarterStep (m : List (String × Rat × Rat)) (h : PortfolioHolding) :
    List (String × Rat × Rat) :=
  updateQuarterMap m (quarterKey h)
    ((h.shares : Rat) * h.current_price) ((h.shares : Rat) * h.purchase_price)

/-- The `quarterMap` built by `getQuarterlyPerformance` over the fetched rows:
entries `(key, (totalValue, totalCost))` in insertion order. -/
def buildQuarterMap (data : List PortfolioHolding) : List (String × Rat × Rat) :=
  data.foldl quarterStep []

/-- The pure part of `getQuarterlyPerformance`: map each group to its percent
return, then `.sort((a, b) => b.quarter.localeCompare(a.quarter))`
(descending key order; `localeCompare` on these ASCII keys is the
lexicographic string order). -/
def quarterlyPerfList (data : List PortfolioHolding) : List QuarterPerf :=
  List.insertionSort (fun a b : QuarterPerf => b.quarter ≤ a.quarter)
    ((buildQuarterMap data).map fun e =>
      { quarter := e.1
        performance := if e.2.2 > (0 : Rat) then (e.2.1 - e.2.2) / e.2.2 * 100 else 0 })

/-- Sum of `shares × current_price` over the holdings of one group. -/
def groupValue (k : String) (hs : List PortfolioHolding) : Rat :=
  sumValue (hs.filter fun h => quarterKey h = k)

/-- Sum of `shares × purchase_price` over the holdings of one group. -/
def groupCost (k : String) (hs : List PortfolioHolding) : Rat :=
  sumCost (hs.filter fun h => quarterKey h = k)

/-- The gain/loss-percent formula restricted to one group. -/
def groupPerf (k : String) (hs : List PortfolioHolding) : Rat :=
  if groupCost k hs > 0 then (groupValue k hs - groupCost k hs) / groupCost k hs * 100
  else 0

/-- Lookup in the quarter map, defaulting to zero totals for an absent key. -/
def getTot : List (String × Rat × Rat) → String → Rat × Rat
  | [], _ => (0, 0)
  | (k, v, c) :: rest, key => if k = key then (v, c) else getTot rest key

/-- Example holdings from the spec: shares 10 at current 100 / purchase 90,
and shares 5 at current 50 / purchase 40. -/
def exampleHoldings : List PortfolioHolding :=
  [{ id := "1", user_id := "u", stock_symbol := "A", company_name := "A Co",
     shares := 10, purchase_price := 90, current_price := 100,
     quarter := "Q1", year := 2024, created_at := 1 },
   { id := "2", user_id := "u", stock_symbol := "B", company_name := "B Co",
     shares := 5, purchase_price := 40, current_price := 50,
     quarter := "Q2", year := 2024, created_at := 2 }]

/-- SQL `SUM` of a rational expression over the selected rows: `NULL`
(`none`) over an empty row set. -/
def sqlSumRat (f : PortfolioHolding → Rat) (rows : List PortfolioHolding) : Option Rat :=
  match rows with
  | [] => none
  | _ => some ((rows.map f).sum)

/-- SQL `SUM(shares)` (a `bigint`): `NULL` over an empty row set. -/
def sqlSumInt (f : PortfolioHolding → Int) (rows : List PortfolioHolding) : Option Int :=
  match rows with
  | [] => none
  | _ => some ((rows.map f).sum)

/-- The row returned by the SQL function `get_portfolio_summary`. -/
structure SqlPortfolioSummaryRow where
  total_value : Option Rat
  total_cost : Option Rat
  total_gain_loss : Option Rat
  total_gain_loss_percent : Rat
  total_shares : Option Int
deriving DecidableEq, Repr

/-- The SQL function `get_portfolio_summary(target_user_id)`, aggregating over
`portfolio_holdings WHERE user_id = target_user_id`.  `SUM` over zero rows is
SQL `NULL`; the `CASE WHEN SUM(...) > 0` guard is unknown for `NULL`, so the
percent falls through to the `ELSE 0` branch. -/
def get_portfolio_summary (table : List PortfolioHolding)
    (target_user_id : String) : SqlPortfolioSummaryRow :=
  let rows := table.filter fun h => h.user_id = target_user_id
  let sv := sqlSumRat (fun h => (h.shares : Rat) * h.current_price) rows
  let sc := sqlSumRat (fun h => (h.shares : Rat) * h.purchase_price) rows
  { total_value := sv
    total_cost := sc
    total_gain_loss :=
      match sv, sc with
      | some v, some c => some (v - c)
      | _, _ => none
    total_gain_loss_percent :=
      match sv, sc with
      | some v, some c => if c > 0 then (v - c) / c * 100 else 0
      | _, _ => 0
    total_shares := sqlSumInt (fun h => h.shares) rows }

/-- The supabase query of `getUserPortfolio`: `eq('user_id', …)` plus the
conditionally added `eq('quarter', …)` / `eq('year', …)` filters.  JS
truthiness: `if (quarter)` skips the filter for an empty string and
`if (year)` skips it for `0` (`NaN` is modelled as `none`). -/
def holdingMatches (userId : String) (quarter : Option String) (year : Option Int)
    (h : PortfolioHolding) : Bool :=
  (h.user_id = userId)
    && (match quarter with
        | some q => if q = "" then true else h.quarter = q
        | none => true)
    && (match year with
        | some y => if y = 0 then true else h.year = y
        | none => true)

/-- The rows the `getUserPortfolio` query returns on success: the matching
rows ordered by `created_at` descending. -/
def getUserPortfolioList (table : List PortfolioHolding) (userId : String)
    (quarter : Option String) (year : Option Int) : List PortfolioHolding :=
  List.insertionSort (fun a b : PortfolioHolding => b.created_at ≤ a.created_at)
    (table.filter (holdingMatches userId quarter year))

/-- `getUserPortfolio`: a remote error is rethrown by its `catch`; otherwise
`data || []` is returned. -/
def getUserPortfolioE (remote : Except String Unit) (table : List PortfolioHolding)
    (userId : String) (quarter : Option String) (year : Option Int) :
    Except String (List PortfolioHolding) :=
  match remote with
  | .error e => .error e
  | .ok _ => .ok (getUserPortfolioList table userId quarter year)

/-- `getQuarterlyPerformance`: its own supabase query (`eq('user_id', …)`, no
ordering); an error is caught locally and yields `[]`. -/
def getQuarterlyPerformanceE (remote : Except String Unit)
    (table : List PortfolioHolding) (userId : String) : List QuarterPerf :=
  match remote with
  | .error _ => []
  | .ok _ => quarterlyPerfList (table.filter fun h => h.user_id = userId)

/-- The `[...new Set(data.map(...))]` spread of `getAvailableQuarters`:
first-occurrence deduplication. -/
def dedupKeys (ks : List String) : List String :=
  ks.foldl (fun acc k => if k ∈ acc then acc else acc ++ [k]) []

/-- The pure part of `getAvailableQuarters`: dedup the composite keys, then
`.sort().reverse()` (ascending lexicographic sort, reversed). -/
def availableQuartersList (data : List PortfolioHolding) : List String :=
  (List.insertionSort (fun a b : String => a ≤ b)
    (dedupKeys (data.map quarterKey))).reverse

/-- `getAvailableQuarters`: an error is caught locally and yields `[]`. -/
def getAvailableQuartersE (remote : Except String Unit)
    (table : List PortfolioHolding) (userId : String) : List String :=
  match remote with
  | .error _ => []
  | .ok _ => availableQuartersList (table.filter fun h => h.user_id = userId)

/-- `getPortfolioSummary`: fetches the full (unfiltered) portfolio, aggregates
it and attaches the quarterly data; an error of the holdings fetch is rethrown
by its `catch` (the quarterly path cannot throw). -/
def getPortfolioSummaryE (remoteH remoteQ : Except String Unit)
    (table : List PortfolioHolding) (userId : String) :
    Except String PortfolioSummary :=
  match getUserPortfolioE remoteH table userId none none with
  | .error e => .error e
  | .ok holdings =>
    .ok (mkPortfolioSummary holdings (getQuarterlyPerformanceE remoteQ table userId))

/-- One entry of the private service cache: `{ data: any; timestamp: number }`
(the payload type is opaque; it is never read). -/
structure CacheEntry where
  data : String
  timestamp : Int
deriving DecidableEq, Repr

/-- The private `cache: Map<string, …>` of `PortfolioService`. -/
abbrev ServiceCache := List (String × CacheEntry)

/-- `CACHE_DURATION = 5 * 60 * 1000` — five minutes, in milliseconds. -/
def CACHE_DURATION : Nat := 5 * 60 * 1000

/-- `getUserPortfolio` with the service state threaded: the method never
touches `this.cache`. -/
def getUserPortfolioSvc (cache : ServiceCache) (remote : Except String Unit)
    (table : List PortfolioHolding) (userId : String) (quarter : Option String)
    (year : Option Int) : Except String (List PortfolioHolding) × ServiceCache :=
  (getUserPortfolioE remote table userId quarter year, cache)

/-- `getPortfolioSummary` with the service state threaded. -/
def getPortfolioSummarySvc (cache : ServiceCache)
    (remoteH remoteQ : Except String Unit) (table : List PortfolioHolding)
    (userId : String) : Except String PortfolioSummary × ServiceCache :=
  (getPortfolioSummaryE remoteH remoteQ table userId, cache)

/-- `getQuarterlyPerformance` with the service state threaded. -/
def getQuarterlyPerformanceSvc (cache : ServiceCache) (remote : Except String Unit)
    (table : List PortfolioHolding) (userId : String) :
    List QuarterPerf × ServiceCache :=
  (getQuarterlyPerformanceE remote table userId, cache)

/-- `getAvailableQuarters` with the service state threaded. -/
def getAvailableQuartersSvc (cache : ServiceCache) (remote : Except String Unit)
    (table : List PortfolioHolding) (userId : String) : List String × ServiceCache :=
  (getAvailableQuartersE remote table userId, cache)

/-- `clearCache(): void { this.cache.clear(); }` — the only cache mutation. -/
def clearCache (_cache : ServiceCache) : ServiceCache := []

/-- The state set by one successful run of the dashboard's
`loadPortfolioData`. -/
structure DashboardData where
  availableQuarters : List String
  holdings : List PortfolioHolding
  summary : PortfolioSummary
deriving Repr

/-- The success path of `loadPortfolioData` in `PortfolioDashboard.tsx`:
list the quarters, fetch the holdings for the selected (or default) quarter
split into `[quarter, year]`, then fetch the summary with no quarter/year
filter. -/
def loadPortfolioData (table : List PortfolioHolding) (userId : String)
    (selectedQuarter : String) : DashboardData :=
  let quarters := getAvailableQuartersE (.ok ()) table userId
  let defaultQuarter := quarters.headD ""
  let chosen := if selectedQuarter ≠ "" then selectedQuarter else defaultQuarter
  let parts := chosen.splitOn " "
  let quarter := parts.headD ""
  let yearStr := parts.getD 1 ""
  let year : Option Int := if yearStr ≠ "" then yearStr.toInt? else none
  { availableQuarters := quarters
    holdings :=
      match getUserPortfolioE (.ok ()) table userId (some quarter) year with
      | .ok l => l
      | .error _ => []
    summary :=
      match getPortfolioSummaryE (.ok ()) (.ok ()) table userId with
      | .ok s => s
      | .error _ => mkPortfolioSummary [] [] }

/-- A single row used in concrete instances: user "u", quarter "Q1",
year 2024. -/
def c6row : PortfolioHolding :=
  { id := "1", user_id := "u", stock_symbol := "TCS", company_name := "TCS Ltd",
    shares := 10, purchase_price := 90, current_price := 100,
    quarter := "Q1", year := 2024, created_at := 5 }

/-- Three rows sharing quarter "Q1" and year 2024 (the spec's quarter-listing
dedup example). -/
def quarterListRows : List PortfolioHolding :=
  [{ id := "1", user_id := "u", stock_symbol := "TCS", company_name := "TCS Ltd",
     shares := 10, purchase_price := 90, current_price := 100,
     quarter := "Q1", year := 2024, created_at := 1 },
   { id := "2", user_id := "u", stock_symbol := "INFY", company_name := "Infosys",
     shares := 5, purchase_price := 40, current_price := 50,
     quarter := "Q1", year := 2024, created_at := 2 },
   { id := "3", user_id := "u", stock_symbol := "TITAN", company_name := "Titan",
     shares := 2, purchase_price := 10, current_price := 20,
     quarter := "Q1", year := 2024, created_at := 3 }]

theorem summaryAccum_step (init : Rat × Rat × Int) (hs : List PortfolioHolding) :
    hs.foldl
      (fun acc holding =>
        (acc.1 + (holding.shares : Rat) * holding.current_price,
         acc.2.1 + (holding.shares : Rat) * holding.purchase_price,
         acc.2.2 + holding.shares)) init
      = (init.1 + sumValue hs, init.2.1 + sumCost hs, init.2.2 + sumShares hs) := by
  induction hs generalizing init with
  | nil => simp [sumValue, sumCost, sumShares]
  | cons h t ih =>
    simp only [List.foldl_cons, ih, sumValue, sumCost, sumShares, List.map_cons,
      List.sum_cons]
    refine Prod.ext ?_ (Prod.ext ?_ ?_) <;> simp <;> ring

theorem summaryAccum_eq (hs : List PortfolioHolding) :
    summaryAccum hs = (sumValue hs, sumCost hs, sumShares hs) := by
  simpa using summaryAccum_step (0, 0, 0) hs

theorem sumCost_nonneg (hs : List PortfolioHolding)
    (hvalid : ∀ h ∈ hs, validHolding h) : 0 ≤ sumCost hs := by
  induction hs with
  | nil => simp [sumCost]
  | cons h t ih =>
    have hv := hvalid h (List.mem_cons_self h t)
    have hrest : 0 ≤ sumCost t := ih fun x hx => hvalid x (List.mem_cons_of_mem h hx)
    have hterm : 0 ≤ (h.shares : Rat) * h.purchase_price := by
      have h1 : (0 : Rat) < (h.shares : Rat) := by exact_mod_cast hv.1
      exact le_of_lt (mul_pos h1 hv.2.1)
    simp only [sumCost, List.map_cons, List.sum_cons]
    have : sumCost t = (t.map fun h => (h.shares : Rat) * h.purchase_price).sum := rfl
    rw [this] at hrest
    linarith

/-- C1: the summary built by `getPortfolioSummary` satisfies the five
aggregation identities of the spec: total value, (intermediate) total cost,
gain/loss, gain/loss percent for nonzero cost, and total shares. -/
theorem getPortfolioSummary_identities (hs : List PortfolioHolding)
    (q : List QuarterPerf) (hvalid : ∀ h ∈ hs, validHolding h) :
    (mkPortfolioSummary hs q).totalValue = sumValue hs
    ∧ (summaryAccum hs).2.1 = sumCost hs
    ∧ (mkPortfolioSummary hs q).totalGainLoss = sumValue hs - sumCost hs
    ∧ (sumCost hs ≠ 0 →
        (mkPortfolioSummary hs q).totalGainLossPercent
          = (sumValue hs - sumCost hs) / sumCost hs * 100)
    ∧ (mkPortfolioSummary hs q).totalShares = sumShares hs := by
  have hacc := summaryAccum_eq hs
  refine ⟨?_, ?_, ?_, ?_, ?_⟩
  · simp [mkPortfolioSummary, hacc]
  · simp [hacc]
  · simp [mkPortfolioSummary, hacc]
  · intro hne
    have hpos : 0 < sumCost hs := lt_of_le_of_ne (sumCost_nonneg hs hvalid) (Ne.symm hne)
    simp [mkPortfolioSummary, hacc, hpos]
  · simp [mkPortfolioSummary, hacc]

theorem updateQuarterMap_cons_self (k : String) (tv tc v c : Rat)
    (rest : List (String × Rat × Rat)) :
    updateQuarterMap ((k, tv, tc) :: rest) k v c = (k, tv + v, tc + c) :: rest := by
  simp [updateQuarterMap]

theorem updateQuarterMap_cons_ne (k key : String) (tv tc v c : Rat)
    (rest : List (String × Rat × Rat)) (hk : k ≠ key) :
    updateQuarterMap ((k, tv, tc) :: rest) key v c
      = (k, tv, tc) :: updateQuarterMap rest key v c := by
  simp [updateQuarterMap, hk]

theorem getTot_update_self (m : List (String × Rat × Rat)) (key : String) (v c : Rat) :
    getTot (updateQuarterMap m key v c) key
      = ((getTot m key).1 + v, (getTot m key).2 + c) := by
  induction m with
  | nil => simp [updateQuarterMap, getTot]
  | cons e rest ih =>
    obtain ⟨k, tv, tc⟩ := e
    by_cases hk : k = key
    · subst hk; simp [updateQuarterMap, getTot]
    · simp [updateQuarterMap, getTot, hk, ih]

theorem getTot_update_other (m : List (String × Rat × Rat)) (key k' : String)
    (v c : Rat) (hne : k' ≠ key) :
    getTot (updateQuarterMap m key v c) k' = getTot m k' := by
  induction m with
  | nil => simp [updateQuarterMap, getTot, Ne.symm hne]
  | cons e rest ih =>
    obtain ⟨k, tv, tc⟩ := e
    by_cases hk : k = key
    · subst hk; simp [updateQuarterMap, getTot, Ne.symm hne]
    · by_cases hk' : k = k'
      · subst hk'; simp [updateQuarterMap, getTot, hk]
      · simp [updateQuarterMap, getTot, hk, hk', ih]

theorem mem_keys_update (m : List (String × Rat × Rat)) (key k' : String) (v c : Rat) :
    k' ∈ (updateQuarterMap m key v c).map Prod.fst
      ↔ k' = key ∨ k' ∈ m.map Prod.fst := by
  induction m with
  | nil => simp [updateQuarterMap]
  | cons e rest ih =>
    obtain ⟨k, tv, tc⟩ := e
    by_cases hk : k = key
    · subst hk
      rw [updateQuarterMap_cons_self]
      simp only [List.map_cons, List.mem_cons]
      tauto
    · rw [updateQuarterMap_cons_ne _ _ _ _ _ _ _ hk]
      simp only [List.map_cons, List.mem_cons]
      rw [ih]
      tauto

theorem nodup_keys_update (m : List (String × Rat × Rat)) (key : String) (v c : Rat)
    (hnd : (m.map Prod.fst).Nodup) :
    ((updateQuarterMap m key v c).map Prod.fst).Nodup := by
  induction m with
  | nil => simp [updateQuarterMap]
  | cons e rest ih =>
    obtain ⟨k, tv, tc⟩ := e
    simp only [List.map_cons, List.nodup_cons] at hnd
    by_cases hk : k = key
    · subst hk
      simpa [updateQuarterMap] using hnd
    · simp only [updateQuarterMap, if_neg hk, List.map_cons, List.nodup_cons]
      refine ⟨?_, ih hnd.2⟩
      intro hmem
      rcases (mem_keys_update rest key k v c).mp hmem with h | h
      · exact hk h
      · exact hnd.1 h

theorem groupValue_cons (k : String) (h : PortfolioHolding) (t : List PortfolioHolding) :
    groupValue k (h :: t)
      = (if quarterKey h = k then (h.shares : Rat) * h.current_price else 0)
        + groupValue k t := by
  by_cases hk : quarterKey h = k
  · simp [groupValue, sumValue, List.filter_cons, hk]
  · simp [groupValue, List.filter_cons, hk]

theorem groupCost_cons (k : String) (h : PortfolioHolding) (t : List PortfolioHolding) :
    groupCost k (h :: t)
      = (if quarterKey h = k then (h.shares : Rat) * h.purchase_price else 0)
        + groupCost k t := by
  by_cases hk : quarterKey h = k
  · simp [groupCost, sumCost, List.filter_cons, hk]
  · simp [groupCost, List.filter_cons, hk]

theorem getTot_foldl (data : List PortfolioHolding) (m : List (String × Rat × Rat))
    (k : String) :
    getTot (data.foldl quarterStep m) k
      = ((getTot m k).1 + groupValue k data, (getTot m k).2 + groupCost k data) := by
  induction data generalizing m with
  | nil => simp [groupValue, groupCost, sumValue, sumCost]
  | cons h t ih =>
    simp only [List.foldl_cons]
    rw [ih, groupValue_cons, groupCost_cons]
    by_cases hk : quarterKey h = k
    · have h1 : getTot (quarterStep m h) k
          = ((getTot m k).1 + (h.shares : Rat) * h.current_price,
             (getTot m k).2 + (h.shares : Rat) * h.purchase_price) := by
        rw [quarterStep, ← hk]
        exact getTot_update_self m (quarterKey h) _ _
      rw [h1]
      simp only [hk, if_pos rfl]
      refine Prod.ext ?_ ?_ <;> simp <;> ring
    · have h1 : getTot (quarterStep m h) k = getTot m k :=
        getTot_update_other m (quarterKey h) k _ _ fun he => hk he.symm
      rw [h1]
      simp [hk]

theorem mem_keys_foldl (data : List PortfolioHolding) (m : List (String × Rat × Rat))
    (k : String) :
    k ∈ (data.foldl quarterStep m).map Prod.fst
      ↔ k ∈ m.map Prod.fst ∨ k ∈ data.map quarterKey := by
  induction data generalizing m with
  | nil => simp
  | cons h t ih =>
    simp only [List.foldl_cons, List.map_cons, List.mem_cons]
    rw [ih]
    unfold quarterStep
    rw [mem_keys_update]
    tauto

theorem nodup_keys_foldl (data : List PortfolioHolding) (m : List (String × Rat × Rat))
    (hnd : (m.map Prod.fst).Nodup) :
    ((data.foldl quarterStep m).map Prod.fst).Nodup := by
  induction data generalizing m with
  | nil => exact hnd
  | cons h t ih =>
    simp only [List.foldl_cons]
    exact ih _ (nodup_keys_update m (quarterKey h) _ _ hnd)

theorem getTot_of_mem (m : List (String × Rat × Rat)) (e : String × Rat × Rat)
    (hmem : e ∈ m) (hnd : (m.map Prod.fst).Nodup) : getTot m e.1 = e.2 := by
  induction m with
  | nil => cases hmem
  | cons f rest ih =>
    obtain ⟨k, tv, tc⟩ := f
    simp only [List.map_cons, List.nodup_cons] at hnd
    rcases List.mem_cons.mp hmem with h | h
    · subst h; simp [getTot]
    · have hne : k ≠ e.1 := by
        intro hkey
        exact hnd.1 (hkey ▸ List.mem_map.mpr ⟨e, h, rfl⟩)
      simp only [getTot, if_neg hne]
      exact ih h hnd.2

/-- C3: `getQuarterlyPerformance` groups holdings by the composite
quarter-year key (each key appears exactly once and exactly the keys of the
input occur), computes each group's performance by the gain/loss-percent
formula over that group's summed value and cost, returns the groups in
strictly descending lexicographic key order, and maps the empty list to the
empty list. -/
theorem getQuarterlyPerformance_grouping (hs : List PortfolioHolding) :
    quarterlyPerfList ([] : List PortfolioHolding) = []
    ∧ ((quarterlyPerfList hs).map QuarterPerf.quarter).Nodup
    ∧ (∀ k, k ∈ (quarterlyPerfList hs).map QuarterPerf.quarter ↔ k ∈ hs.map quarterKey)
    ∧ (∀ e ∈ quarterlyPerfList hs, e.performance = groupPerf e.quarter hs)
    ∧ (quarterlyPerfList hs).Pairwise (fun a b => b.quarter < a.quarter) := by
  haveI htot : IsTotal QuarterPerf (fun a b : QuarterPerf => b.quarter ≤ a.quarter) :=
    ⟨fun a b => le_total b.quarter a.quarter⟩
  haveI htrans : IsTrans QuarterPerf (fun a b : QuarterPerf => b.quarter ≤ a.quarter) :=
    ⟨fun a b c hab hbc => le_trans hbc hab⟩
  have hperm : List.Perm (quarterlyPerfList hs)
      ((buildQuarterMap hs).map fun e =>
        ({ quarter := e.1
           performance := if e.2.2 > (0 : Rat) then (e.2.1 - e.2.2) / e.2.2 * 100
             else 0 } : QuarterPerf)) :=
    List.perm_insertionSort _ _
  have hkeys : ((buildQuarterMap hs).map fun e =>
      ({ quarter := e.1
         performance := if e.2.2 > (0 : Rat) then (e.2.1 - e.2.2) / e.2.2 * 100
           else 0 } : QuarterPerf)).map QuarterPerf.quarter
        = (buildQuarterMap hs).map Prod.fst := by
    rw [List.map_map]; rfl
  have hnodupkeys : ((buildQuarterMap hs).map Prod.fst).Nodup :=
    nodup_keys_foldl hs [] (by simp)
  have hnd : ((quarterlyPerfList hs).map QuarterPerf.quarter).Nodup := by
    rw [(hperm.map QuarterPerf.quarter).nodup_iff, hkeys]
    exact hnodupkeys
  have hmem : ∀ k, k ∈ (quarterlyPerfList hs).map QuarterPerf.quarter
      ↔ k ∈ hs.map quarterKey := by
    intro k
    rw [(hperm.map QuarterPerf.quarter).mem_iff, hkeys]
    have := mem_keys_foldl hs [] k
    simpa [buildQuarterMap] using this
  refine ⟨rfl, hnd, hmem, ?_, ?_⟩
  · intro e he
    have hem : e ∈ (buildQuarterMap hs).map fun ent =>
        ({ quarter := ent.1
           performance := if ent.2.2 > (0 : Rat) then (ent.2.1 - ent.2.2) / ent.2.2 * 100
             else 0 } : QuarterPerf) := hperm.mem_iff.mp he
    obtain ⟨ent, hent, hfe⟩ := List.mem_map.mp hem
    have htots : getTot (buildQuarterMap hs) ent.1 = ent.2 :=
      getTot_of_mem _ ent hent hnodupkeys
    have hfold : getTot (buildQuarterMap hs) ent.1
        = ((getTot [] ent.1).1 + groupValue ent.1 hs,
           (getTot [] ent.1).2 + groupCost ent.1 hs) := getTot_foldl hs [] ent.1
    rw [htots] at hfold
    have hv : ent.2.1 = groupValue ent.1 hs := by
      have := congrArg Prod.fst hfold
      simpa [getTot] using this
    have hc : ent.2.2 = groupCost ent.1 hs := by
      have := congrArg Prod.snd hfold
      simpa [getTot] using this
    rw [← hfe]
    simp only [groupPerf, ← hv, ← hc]
  · have hsorted : List.Pairwise (fun a b : QuarterPerf => b.quarter ≤ a.quarter)
        (quarterlyPerfList hs) :=
      List.sorted_insertionSort _ _
    have hne : List.Pairwise (fun a b : QuarterPerf => a.quarter ≠ b.quarter)
        (quarterlyPerfList hs) := List.pairwise_map.mp hnd
    exact (hsorted.and hne).imp fun hab => lt_of_le_of_ne hab.1 (Ne.symm hab.2)

/-- Witness for C3 at the spec's example list (quarters Q1 2024 and Q2 2024). -/
theorem getQuarterlyPerformance_grouping_witness :
    "Q1 2024" ∈ (quarterlyPerfList exampleHoldings).map QuarterPerf.quarter
    ∧ quarterlyPerfList ([] : List PortfolioHolding) = [] := by
  have h := getQuarterlyPerformance_grouping exampleHoldings
  have hm : "Q1 2024" ∈ exampleHoldings.map quarterKey := by decide
  exact ⟨(h.2.2.1 "Q1 2024").mpr hm, h.1⟩

theorem eq_nil_of_sumCost_eq_zero (hs : List PortfolioHolding)
    (hvalid : ∀ h ∈ hs, validHolding h) (hzero : sumCost hs = 0) : hs = [] := by
  cases hs with
  | nil => rfl
  | cons h t =>
    exfalso
    have hv := hvalid h (List.mem_cons_self h t)
    have hterm : 0 < (h.shares : Rat) * h.purchase_price := by
      have h1 : (0 : Rat) < (h.shares : Rat) := by exact_mod_cast hv.1
      exact mul_pos h1 hv.2.1
    have hrest : 0 ≤ sumCost t :=
      sumCost_nonneg t fun x hx => hvalid x (List.mem_cons_of_mem h hx)
    have hsplit : sumCost (h :: t) = (h.shares : Rat) * h.purchase_price + sumCost t := by
      simp [sumCost]
    rw [hsplit] at hzero
    linarith

/-- C4: when the holdings (all satisfying the table's CHECK constraints) have
total cost 0 — which forces the list to be empty — the summary returned by
`getPortfolioSummary` has gain/loss percent 0 and every other field 0 (the
quarterly list empty); the `totalCost > 0` guard avoids the division. -/
theorem zero_cost_summary_all_zero (hs : List PortfolioHolding)
    (hvalid : ∀ h ∈ hs, validHolding h) (hzero : sumCost hs = 0) :
    (mkPortfolioSummary hs (quarterlyPerfList hs)).totalValue = 0
    ∧ (mkPortfolioSummary hs (quarterlyPerfList hs)).totalGainLoss = 0
    ∧ (mkPortfolioSummary hs (quarterlyPerfList hs)).totalGainLossPercent = 0
    ∧ (mkPortfolioSummary hs (quarterlyPerfList hs)).totalShares = 0
    ∧ (mkPortfolioSummary hs (quarterlyPerfList hs)).quarterlyPerformance = [] := by
  have hnil := eq_nil_of_sumCost_eq_zero hs hvalid hzero
  subst hnil
  refine ⟨?_, ?_, ?_, ?_, ?_⟩ <;>
    simp [mkPortfolioSummary, summaryAccum, quarterlyPerfList, buildQuarterMap]

/-- Witness for C4 at the empty holdings list. -/
theorem zero_cost_summary_all_zero_witness :
    (mkPortfolioSummary [] (quarterlyPerfList [])).totalGainLossPercent = 0
    ∧ (mkPortfolioSummary [] (quarterlyPerfList [])).totalValue = 0
    ∧ (mkPortfolioSummary [] (quarterlyPerfList [])).totalShares = 0 := by
  have h := zero_cost_summary_all_zero [] (by simp) (by simp [sumCost])
  exact ⟨h.2.2.1, h.1, h.2.2.2.1⟩

/-- Witness for C1 at the spec's example list: total value 1250, cost 1100,
gain/loss percent `150/1100·100` (the spec's prose example mistakenly lists
total value 1500; `10·100 + 5·50 = 1250`). -/
theorem getPortfolioSummary_identities_witness :
    (mkPortfolioSummary exampleHoldings []).totalValue = sumValue exampleHoldings
    ∧ sumValue exampleHoldings = 1250 ∧ sumCost exampleHoldings = 1100
    ∧ (mkPortfolioSummary exampleHoldings []).totalGainLossPercent
        = (1250 - 1100) / 1100 * 100 := by
  have h := getPortfolioSummary_identities exampleHoldings []
    (by norm_num [exampleHoldings, validHolding])
  have hv : sumValue exampleHoldings = 1250 := by norm_num [sumValue, exampleHoldings]
  have hc : sumCost exampleHoldings = 1100 := by norm_num [sumCost, exampleHoldings]
  refine ⟨h.1, hv, hc, ?_⟩
  rw [h.2.2.2.1 (by rw [hc]; norm_num), hv, hc]

/-- C5: a failure of the holdings fetch propagates out of
`getPortfolioSummary` as an error (never a silently empty summary), while a
failure inside `getQuarterlyPerformance` or `getAvailableQuarters` is caught
locally and degrades to the empty list. -/
theorem error_propagation_paths (e : String) (remoteQ : Except String Unit)
    (table : List PortfolioHolding) (uid : String) :
    getPortfolioSummaryE (.error e) remoteQ table uid = .error e
    ∧ getQuarterlyPerformanceE (.error e) table uid = []
    ∧ getAvailableQuartersE (.error e) table uid = [] :=
  ⟨rfl, rfl, rfl⟩

/-- C8: the aggregation is pure and deterministic: invoking
`getPortfolioSummary` twice on the same input yields identical results, and
neither invocation changes the service state. -/
theorem getPortfolioSummary_deterministic (cache : ServiceCache)
    (remoteH remoteQ : Except String Unit) (table : List PortfolioHolding)
    (uid : String) :
    (getPortfolioSummarySvc
        (getPortfolioSummarySvc cache remoteH remoteQ table uid).2
        remoteH remoteQ table uid).1
      = (getPortfolioSummarySvc cache remoteH remoteQ table uid).1
    ∧ (getPortfolioSummarySvc cache remoteH remoteQ table uid).2 = cache :=
  ⟨rfl, rfl⟩

/-- C9: no fetch or aggregation operation reads or writes the cache — each
returns it unchanged — and `clearCache`, the only mutator, empties it; the
expiry constant is five minutes in milliseconds. -/
theorem cache_frame (cache : ServiceCache) (remote remoteQ : Except String Unit)
    (table : List PortfolioHolding) (uid : String) (quarter : Option String)
    (year : Option Int) :
    (getUserPortfolioSvc cache remote table uid quarter year).2 = cache
    ∧ (getPortfolioSummarySvc cache remote remoteQ table uid).2 = cache
    ∧ (getQuarterlyPerformanceSvc cache remote table uid).2 = cache
    ∧ (getAvailableQuartersSvc cache remote table uid).2 = cache
    ∧ clearCache cache = []
    ∧ CACHE_DURATION = 5 * 60 * 1000 :=
  ⟨rfl, rfl, rfl, rfl, rfl, rfl⟩

/-- C10: the dashboard summary comes from the unfiltered holdings fetch, so it
is identical for any two selected quarters, even though the holdings table is
fetched with the selected quarter's filters. -/
theorem dashboard_summary_quarter_independent (table : List PortfolioHolding)
    (uid : String) (q1 q2 : String) :
    (loadPortfolioData table uid q1).summary = (loadPortfolioData table uid q2).summary
    ∧ (loadPortfolioData table uid q1).summary
        = mkPortfolioSummary (getUserPortfolioList table uid none none)
            (getQuarterlyPerformanceE (.ok ()) table uid) :=
  ⟨rfl, rfl⟩

theorem get_portfolio_summary_of_ne_nil (table : List PortfolioHolding)
    (uid : String) (hne : table.filter (fun h => h.user_id = uid) ≠ []) :
    get_portfolio_summary table uid =
      { total_value := some (sumValue (table.filter fun h => h.user_id = uid))
        total_cost := some (sumCost (table.filter fun h => h.user_id = uid))
        total_gain_loss := some (sumValue (table.filter fun h => h.user_id = uid)
            - sumCost (table.filter fun h => h.user_id = uid))
        total_gain_loss_percent :=
          if sumCost (table.filter fun h => h.user_id = uid) > 0 then
            (sumValue (table.filter fun h => h.user_id = uid)
                - sumCost (table.filter fun h => h.user_id = uid))
              / sumCost (table.filter fun h => h.user_id = uid) * 100
          else 0
        total_shares := some (sumShares (table.filter fun h => h.user_id = uid)) } := by
  obtain ⟨r, rs, hrows⟩ : ∃ r rs, table.filter (fun h => h.user_id = uid) = r :: rs := by
    cases hfil : table.filter (fun h => h.user_id = uid) with
    | nil => exact absurd hfil hne
    | cons r rs => exact ⟨r, rs, rfl⟩
  simp [get_portfolio_summary, hrows, sqlSumRat, sqlSumInt, sumValue, sumCost,
    sumShares]

theorem clientRows_perm (table : List PortfolioHolding) (uid : String) :
    List.Perm (getUserPortfolioList table uid none none)
      (table.filter fun h => h.user_id = uid) := by
  unfold getUserPortfolioList
  have hfil : table.filter (holdingMatches uid none none)
      = table.filter (fun h => h.user_id = uid) := by
    apply List.filter_congr
    intro x _
    simp [holdingMatches]
  rw [hfil]
  exact List.perm_insertionSort _ _

theorem sumValue_perm (l₁ l₂ : List PortfolioHolding) (h : List.Perm l₁ l₂) :
    sumValue l₁ = sumValue l₂ :=
  (h.map _).sum_eq

theorem sumCost_perm (l₁ l₂ : List PortfolioHolding) (h : List.Perm l₁ l₂) :
    sumCost l₁ = sumCost l₂ :=
  (h.map _).sum_eq

theorem sumShares_perm (l₁ l₂ : List PortfolioHolding) (h : List.Perm l₁ l₂) :
    sumShares l₁ = sumShares l₂ :=
  (h.map _).sum_eq

/-- C2 counterexample (the claim includes the empty list): over zero rows the
server-side `total_value` is SQL `NULL` while the client-side total value is
`0`, so the two summaries are not identical. -/
theorem server_client_summary_empty_cex :
    (get_portfolio_summary ([] : List PortfolioHolding) "u").total_value
      ≠ some (mkPortfolioSummary (getUserPortfolioList [] "u" none none)
          (getQuarterlyPerformanceE (.ok ()) [] "u")).totalValue := by
  simp [get_portfolio_summary, sqlSumRat]

/-- C2 (amended): whenever the user has at least one holding row, the
server-side `get_portfolio_summary` and the client-side `getPortfolioSummary`
aggregation agree on every field; on the empty row set they differ (the SQL
sums are `NULL`, the client totals `0`), agreeing only on the percent. -/
theorem server_client_summary_agree (table : List PortfolioHolding) (uid : String)
    (hne : table.filter (fun h => h.user_id = uid) ≠ []) :
    (get_portfolio_summary table uid).total_value
        = some (mkPortfolioSummary (getUserPortfolioList table uid none none)
            (getQuarterlyPerformanceE (.ok ()) table uid)).totalValue
    ∧ (get_portfolio_summary table uid).total_cost
        = some ((summaryAccum (getUserPortfolioList table uid none none)).2.1)
    ∧ (get_portfolio_summary table uid).total_gain_loss
        = some (mkPortfolioSummary (getUserPortfolioList table uid none none)
            (getQuarterlyPerformanceE (.ok ()) table uid)).totalGainLoss
    ∧ (get_portfolio_summary table uid).total_gain_loss_percent
        = (mkPortfolioSummary (getUserPortfolioList table uid none none)
            (getQuarterlyPerformanceE (.ok ()) table uid)).totalGainLossPercent
    ∧ (get_portfolio_summary table uid).total_shares
        = some (mkPortfolioSummary (getUserPortfolioList table uid none none)
            (getQuarterlyPerformanceE (.ok ()) table uid)).totalShares := by
  have hperm := clientRows_perm table uid
  have hv : sumValue (getUserPortfolioList table uid none none)
      = sumValue (table.filter fun h => h.user_id = uid) := sumValue_perm _ _ hperm
  have hc : sumCost (getUserPortfolioList table uid none none)
      = sumCost (table.filter fun h => h.user_id = uid) := sumCost_perm _ _ hperm
  have hsh : sumShares (getUserPortfolioList table uid none none)
      = sumShares (table.filter fun h => h.user_id = uid) := sumShares_perm _ _ hperm
  have hacc := summaryAccum_eq (getUserPortfolioList table uid none none)
  rw [get_portfolio_summary_of_ne_nil table uid hne]
  refine ⟨?_, ?_, ?_, ?_, ?_⟩ <;>
    simp only [mkPortfolioSummary, hacc, hv, hc, hsh]

/-- Witness for C2 (amended) at a one-row table. -/
theorem server_client_summary_agree_witness :
    (get_portfolio_summary [c6row] "u").total_value
      = some (mkPortfolioSummary (getUserPortfolioList [c6row] "u" none none)
          (getQuarterlyPerformanceE (.ok ()) [c6row] "u")).totalValue
    ∧ (get_portfolio_summary [c6row] "u").total_shares
      = some (mkPortfolioSummary (getUserPortfolioList [c6row] "u" none none)
          (getQuarterlyPerformanceE (.ok ()) [c6row] "u")).totalShares := by
  have h := server_client_summary_agree [c6row] "u" (by decide)
  exact ⟨h.1, h.2.2.2.2⟩

/-- C6 counterexample: with the quarter filter present as the empty string,
`getUserPortfolio` ignores it (JS truthiness of `if (quarter)`), returning a
row whose quarter is "Q1" rather than matching the filter value "". -/
theorem getUserPortfolio_conjunctive_cex :
    ¬ (∀ h ∈ getUserPortfolioList [c6row] "u" (some "") none, h.quarter = "") := by
  intro hcl
  have hmem : c6row ∈ getUserPortfolioList [c6row] "u" (some "") none := by decide
  have hq := hcl c6row hmem
  have : c6row.quarter = "Q1" := rfl
  rw [this] at hq
  exact absurd hq (by decide)

/-- C6 (amended): every returned record matches the user filter and any
present truthy quarter/year filter (a present empty-string quarter or zero
year is ignored, per JS truthiness); results are ordered by `created_at`
descending; a remote failure propagates as an error. -/
theorem getUserPortfolio_contract (table : List PortfolioHolding) (uid : String)
    (quarter : Option String) (year : Option Int) :
    (∀ h ∈ getUserPortfolioList table uid quarter year,
        h.user_id = uid
        ∧ (∀ q, quarter = some q → q ≠ "" → h.quarter = q)
        ∧ (∀ y, year = some y → y ≠ 0 → h.year = y))
    ∧ (getUserPortfolioList table uid quarter year).Pairwise
        (fun a b => b.created_at ≤ a.created_at)
    ∧ (∀ e, getUserPortfolioE (.error e) table uid quarter year = .error e) := by
  refine ⟨?_, ?_, fun e => rfl⟩
  · intro h hmem
    have hmem' : h ∈ table.filter (holdingMatches uid quarter year) :=
      (List.perm_insertionSort _ _).mem_iff.mp hmem
    have hmatch : holdingMatches uid quarter year h = true :=
      List.of_mem_filter hmem'
    simp only [holdingMatches, Bool.and_eq_true, decide_eq_true_eq] at hmatch
    refine ⟨hmatch.1.1, ?_, ?_⟩
    · intro q hq hqne
      subst hq
      have := hmatch.1.2
      simpa [hqne] using this
    · intro y hy hyne
      subst hy
      have := hmatch.2
      simpa [hyne] using this
  · haveI : IsTotal PortfolioHolding
        (fun a b : PortfolioHolding => b.created_at ≤ a.created_at) :=
      ⟨fun a b => le_total b.created_at a.created_at⟩
    haveI : IsTrans PortfolioHolding
        (fun a b : PortfolioHolding => b.created_at ≤ a.created_at) :=
      ⟨fun a b c hab hbc => le_trans hbc hab⟩
    exact List.sorted_insertionSort _ _

/-- Witness for C6 (amended) at a one-row table with both filters truthy. -/
theorem getUserPortfolio_contract_witness :
    c6row.user_id = "u" ∧ c6row.quarter = "Q1" ∧ c6row.year = 2024 := by
  have h := (getUserPortfolio_contract [c6row] "u" (some "Q1") (some 2024)).1
    c6row (by decide)
  exact ⟨h.1, h.2.1 "Q1" rfl (by decide), h.2.2 2024 rfl (by decide)⟩

theorem dedupKeys_loop_nodup (ks : List String) (acc : List String)
    (hacc : acc.Nodup) :
    (ks.foldl (fun acc k => if k ∈ acc then acc else acc ++ [k]) acc).Nodup := by
  induction ks generalizing acc with
  | nil => exact hacc
  | cons k t ih =>
    simp only [List.foldl_cons]
    by_cases hk : k ∈ acc
    · rw [if_pos hk]; exact ih acc hacc
    · rw [if_neg hk]
      exact ih _ (by simp [List.nodup_append, hacc, hk])

theorem mem_dedupKeys_loop (ks : List String) (acc : List String) (x : String) :
    x ∈ ks.foldl (fun acc k => if k ∈ acc then acc else acc ++ [k]) acc
      ↔ x ∈ acc ∨ x ∈ ks := by
  induction ks generalizing acc with
  | nil => simp
  | cons k t ih =>
    simp only [List.foldl_cons, List.mem_cons]
    by_cases hk : k ∈ acc
    · rw [if_pos hk, ih]
      constructor
      · tauto
      · rintro (h | h | h)
        · exact Or.inl h
        · exact Or.inl (h ▸ hk)
        · exact Or.inr h
    · rw [if_neg hk, ih]
      simp only [List.mem_append, List.mem_singleton]
      tauto

theorem nodup_availableQuartersList (hs : List PortfolioHolding) :
    (availableQuartersList hs).Nodup := by
  unfold availableQuartersList
  rw [List.nodup_reverse, (List.perm_insertionSort _ _).nodup_iff]
  exact dedupKeys_loop_nodup _ [] (by simp)

theorem mem_availableQuartersList (hs : List PortfolioHolding) (k : String) :
    k ∈ availableQuartersList hs ↔ k ∈ hs.map quarterKey := by
  unfold availableQuartersList dedupKeys
  rw [List.mem_reverse, (List.perm_insertionSort _ _).mem_iff, mem_dedupKeys_loop]
  simp

/-- C7: `getAvailableQuarters` lists each distinct composite quarter-year
label exactly once — exactly the labels occurring in the holdings, without
duplicates; on the three-row "Q1 2024" example the label is listed once. -/
theorem getAvailableQuarters_dedup (hs : List PortfolioHolding) :
    (availableQuartersList hs).Nodup
    ∧ (∀ k, k ∈ availableQuartersList hs ↔ k ∈ hs.map quarterKey)
    ∧ (availableQuartersList quarterListRows).count "Q1 2024" = 1 := by
  refine ⟨nodup_availableQuartersList hs, mem_availableQuartersList hs, ?_⟩
  exact List.count_eq_one_of_mem (nodup_availableQuartersList quarterListRows)
    ((mem_availableQuartersList quarterListRows "Q1 2024").mpr (by decide))

/-- Witness for C7 at the three-row example. -/
theorem getAvailableQuarters_dedup_witness :
    (availableQuartersList quarterListRows).count "Q1 2024" = 1 :=
  (getAvailableQuarters_dedup quarterListRows).2.2
